import Mathlib

/-
Verification of the core logic of `webserver/feed_server.py` from the
podkast.radiorevolt.no repository, against its natural-language specification.

The development shallowly embeds the Python source:

* the slug normalizer `get_readable_slug_from` (Python: `.lower()` followed by
  `re.sub` with the pattern `[^\w\d]|_`), restricted to the ASCII fragment of
  the character classes involved;
* the show resolver `find_show`, with the external show catalog and the
  `settings.SHOW_CUSTOM_URL` alias map abstracted as parameters (`Env`);
  Python exceptions become an explicit error type `Exc`;
* the redirect store: the two sqlite tables `sound` / `article` become lists of
  rows, `SELECT`/`INSERT` become list lookups and a checked append, and the
  nondeterministic `shortuuid.uuid()` values become explicit parameters;
* the two redirect routes, and an interleaving small-step model of concurrent
  `get_or_create_proxy` calls.
-/

deriving instance DecidableEq for Except

/-! ## Slug normalizer (`get_readable_slug_from`, feed_server.py lines 48-56) -/

/-- Python `str.lower()` on one character, ASCII fragment: maps `A`-`Z`
(code points 65-90) to `a`-`z` and fixes everything else. -/
def pyToLower (c : Char) : Char :=
  if 65 ≤ c.toNat ∧ c.toNat ≤ 90 then Char.ofNat (c.toNat + 32) else c

/-- Python `str.lower()` on a string (ASCII fragment). -/
def pyLowerStr (s : String) : String :=
  ⟨s.data.map pyToLower⟩

/-- The character class retained by `remove_non_word.sub("", ·)` where
`remove_non_word = re.compile(r"[^\w\d]|_")`: word characters except the
underscore, i.e. letters and digits (ASCII fragment of `\w`). -/
def isAsciiLetterOrDigit (c : Char) : Bool :=
  (decide (65 ≤ c.toNat) && decide (c.toNat ≤ 90)) ||
  (decide (97 ≤ c.toNat) && decide (c.toNat ≤ 122)) ||
  (decide (48 ≤ c.toNat) && decide (c.toNat ≤ 57))

/-- `get_readable_slug_from(show_name)`: lower-case, then delete every
character that the regex `[^\w\d]|_` matches. -/
def get_readable_slug_from (show_name : String) : String :=
  ⟨(show_name.data.map pyToLower).filter isAsciiLetterOrDigit⟩

theorem toNat_ofNat_valid {n : Nat} (h : n < 55296) : (Char.ofNat n).toNat = n := by
  rw [Char.ofNat, dif_pos (Or.inl h)]
  rfl

theorem toNat_lt (c : Char) : c.toNat < 1114112 := by
  rcases c with ⟨v, hv⟩
  rcases hv with h | ⟨_, h⟩
  · exact Nat.lt_trans h (by decide)
  · exact h

theorem pyToLower_toNat (c : Char) :
    (pyToLower c).toNat =
      if 65 ≤ c.toNat ∧ c.toNat ≤ 90 then c.toNat + 32 else c.toNat := by
  rw [pyToLower]
  split
  · next h => rw [toNat_ofNat_valid (by omega)]
  · rfl

theorem pyToLower_not_upper (c : Char) :
    ¬(65 ≤ (pyToLower c).toNat ∧ (pyToLower c).toNat ≤ 90) := by
  rw [pyToLower_toNat]
  split <;> omega

theorem pyToLower_idem (c : Char) : pyToLower (pyToLower c) = pyToLower c := by
  show (if 65 ≤ (pyToLower c).toNat ∧ (pyToLower c).toNat ≤ 90 then
          Char.ofNat ((pyToLower c).toNat + 32) else pyToLower c) = pyToLower c
  exact if_neg (pyToLower_not_upper c)

theorem isAsciiLetterOrDigit_iff (c : Char) :
    isAsciiLetterOrDigit c = true ↔
      (65 ≤ c.toNat ∧ c.toNat ≤ 90) ∨ (97 ≤ c.toNat ∧ c.toNat ≤ 122) ∨
      (48 ≤ c.toNat ∧ c.toNat ≤ 57) := by
  simp [isAsciiLetterOrDigit]
  tauto

theorem isAsciiLetterOrDigit_pyToLower (c : Char) :
    isAsciiLetterOrDigit (pyToLower c) = isAsciiLetterOrDigit c := by
  rw [Bool.eq_iff_iff, isAsciiLetterOrDigit_iff, isAsciiLetterOrDigit_iff,
    pyToLower_toNat]
  split <;> omega

theorem pyToLower_fix_of_not_upper (c : Char)
    (h : ¬(65 ≤ c.toNat ∧ c.toNat ≤ 90)) : pyToLower c = c := by
  rw [pyToLower]
  exact if_neg h

theorem slug_data (s : String) :
    (get_readable_slug_from s).data = (s.data.map pyToLower).filter isAsciiLetterOrDigit :=
  rfl

theorem map_pyToLower_slug_data (s : String) :
    ((get_readable_slug_from s).data.map pyToLower) = (get_readable_slug_from s).data := by
  rw [slug_data]
  have h : ∀ c ∈ (s.data.map pyToLower).filter isAsciiLetterOrDigit,
      pyToLower c = c := by
    intro c hc
    have hc' := List.mem_of_mem_filter hc
    rcases List.mem_map.mp hc' with ⟨b, _, rfl⟩
    exact pyToLower_idem b
  calc ((s.data.map pyToLower).filter isAsciiLetterOrDigit).map pyToLower
      = ((s.data.map pyToLower).filter isAsciiLetterOrDigit).map id :=
        List.map_congr_left h
    _ = _ := List.map_id _

/-- C8: the slug function is idempotent; strings of lower-case ASCII letters
and digits are fixed points; `slug("My Show!") = slug("MY SHOW") = "myshow"`. -/
theorem claim_C8_slug_idempotent :
    (∀ s : String, get_readable_slug_from (get_readable_slug_from s) = get_readable_slug_from s) ∧
    (∀ s : String,
      (∀ c ∈ s.data, (97 ≤ c.toNat ∧ c.toNat ≤ 122) ∨ (48 ≤ c.toNat ∧ c.toNat ≤ 57)) →
      get_readable_slug_from s = s) ∧
    get_readable_slug_from "My Show!" = "myshow" ∧
    get_readable_slug_from "MY SHOW" = "myshow" := by
  refine ⟨?_, ?_, by decide, by decide⟩
  · intro s
    have h1 := map_pyToLower_slug_data s
    have h2 : ((get_readable_slug_from s).data.filter isAsciiLetterOrDigit) =
        (get_readable_slug_from s).data := by
      rw [List.filter_eq_self]
      intro c hc
      exact List.of_mem_filter (by rw [slug_data] at hc; exact hc)
    show String.mk (((get_readable_slug_from s).data.map pyToLower).filter isAsciiLetterOrDigit) =
      get_readable_slug_from s
    rw [h1, h2]
  · intro s hs
    have h1 : s.data.map pyToLower = s.data := by
      have h : ∀ c ∈ s.data, pyToLower c = c := by
        intro c hc
        exact pyToLower_fix_of_not_upper c (by rcases hs c hc with h | h <;> omega)
      calc s.data.map pyToLower = s.data.map id := List.map_congr_left h
        _ = s.data := List.map_id _
    have h2 : s.data.filter isAsciiLetterOrDigit = s.data := by
      rw [List.filter_eq_self]
      intro c hc
      rw [isAsciiLetterOrDigit_iff]
      rcases hs c hc with h | h
      · exact Or.inr (Or.inl h)
      · exact Or.inr (Or.inr h)
    show String.mk ((s.data.map pyToLower).filter isAsciiLetterOrDigit) = s
    rw [h1, h2]

/-- Witness for C8 at concrete inputs. -/
theorem claim_C8_slug_idempotent_witness :
    get_readable_slug_from "myshow" = "myshow" ∧
    get_readable_slug_from "My Show!" = "myshow" :=
  ⟨claim_C8_slug_idempotent.2.1 "myshow" (by decide),
   claim_C8_slug_idempotent.2.2.1⟩

/-! ## Show resolver (`find_show`, feed_server.py lines 13-41) -/

/-- A show record from the external catalog (`show_id`, `title`). -/
structure Show where
  show_id : Int
  title : String
deriving DecidableEq

/-- The `show` argument of `find_show` is either a string (route path segment)
or an integer (a `SHOW_CUSTOM_URL` value passed back in by the alias
fallback). -/
inductive Tok where
  | s (v : String)
  | i (v : Int)
deriving DecidableEq

/-- Exceptions that can escape `find_show`: `NoSuchShowError` (line 40),
`RuntimeError` for the recursion guard (line 19), `KeyError` from indexing
`gen.show_source.shows` with an absent id (line 41), and `AttributeError` from
calling `.strip()` on an integer (line 34). -/
inductive Exc where
  | noSuchShow
  | recursionLimit
  | keyError
  | attributeError
deriving DecidableEq

/-- The read-only context of `find_show`: the catalog's name index
(`gen.get_show_id_by_name`), the catalog itself (`gen.show_source.shows`), and
the alias map `settings.SHOW_CUSTOM_URL` in iteration order. -/
structure Env where
  byName : String → Option Int
  shows : Int → Option Show
  aliases : List (String × Tok)

/-- `gen.get_show_id_by_name(show)`: the name index is string-keyed; a miss
(Python `KeyError` / `NoSuchShowError`, both caught at the call site) is
`none`, and an integer argument never matches a string key. -/
def get_show_id_by_name (env : Env) : Tok → Option Int
  | .s v => env.byName v
  | .i _ => none

/-- `gen.show_source.shows[show_id]`: indexing the catalog mapping with an
absent id raises `KeyError`, which `find_show` does not catch. -/
def lookupShows (env : Env) (sid : Int) : Except Exc Show :=
  match env.shows sid with
  | some sh => .ok sh
  | none => .error .keyError

/-- Python `str.strip()` (ASCII whitespace fragment). -/
def pyStrip (s : String) : String :=
  ⟨((s.data.dropWhile Char.isWhitespace).reverse.dropWhile Char.isWhitespace).reverse⟩

/-- Value of a nonempty all-digit character list. -/
def digitsVal (l : List Char) : Nat :=
  l.foldl (fun a c => a * 10 + (c.toNat - 48)) 0

/-- Digits of `int(str)`: accepted only if nonempty and all ASCII digits. -/
def digitsToNat (l : List Char) : Option Nat :=
  if l ≠ [] ∧ l.all Char.isDigit then some (digitsVal l) else none

/-- Python `int(s)` on a string: strip whitespace, optional sign, digits;
`none` models the `ValueError` caught at feed_server.py line 25. -/
def pyStrToInt (s : String) : Option Int :=
  match (pyStrip s).data with
  | [] => none
  | '-' :: ds => (digitsToNat ds).map fun n => -(n : Int)
  | '+' :: ds => (digitsToNat ds).map fun n => (n : Int)
  | ds => (digitsToNat ds).map fun n => (n : Int)

/-- Python `int(show)` for the `show` argument: an integer is returned as is,
a string is parsed. -/
def pyTokInt : Tok → Option Int
  | .i v => some v
  | .s v => pyStrToInt v

def MAX_RECURSION_DEPTH : Nat := 20

/-- Body of `find_show`, indexed by the remaining recursion budget
`fuel = MAX_RECURSION_DEPTH - recursion_depth`; `fuel = 0` is exactly the
entry guard `recursion_depth >= MAX_RECURSION_DEPTH` raising `RuntimeError`,
and the recursive call at line 38 passes `recursion_depth + 1`, i.e.
`fuel - 1`. The truthiness test `if not show_id:` is true for both `None`
and `0`. -/
def findShowFuel (env : Env) (tok : Tok) (strict : Bool) : Nat → Except Exc Show
  | 0 => .error .recursionLimit
  | fuel + 1 =>
    let show_id : Option Int := if strict then none else pyTokInt tok
    if show_id = none ∨ show_id = some 0 then
      match get_show_id_by_name env tok with
      | some sid => lookupShows env sid
      | none =>
        match tok with
        | .i _ => .error .attributeError
        | .s v =>
          match env.aliases.find? (fun q => pyLowerStr q.1 == pyLowerStr (pyStrip v)) with
          | some q => findShowFuel env q.2 false fuel
          | none => .error .noSuchShow
    else
      match show_id with
      | some sid => lookupShows env sid
      | none => .error .noSuchShow

/-- `find_show(gen, show, strict=True, recursion_depth=0)`. -/
def find_show (env : Env) (tok : Tok) (strict : Bool) (recursion_depth : Nat) :
    Except Exc Show :=
  findShowFuel env tok strict (MAX_RECURSION_DEPTH - recursion_depth)

/-- An environment with an empty catalog and no aliases. -/
def envEmpty : Env :=
  { byName := fun _ => none, shows := fun _ => none, aliases := [] }

/-- An environment whose alias map is a two-step cycle. -/
def cycleEnv : Env :=
  { byName := fun _ => none, shows := fun _ => none,
    aliases := [("a", Tok.s "b"), ("b", Tok.s "a")] }

/-- An environment whose catalog contains a show with id `0`. -/
def envZero : Env :=
  { byName := fun _ => none,
    shows := fun i => if i = 0 then some ⟨0, "zero"⟩ else none,
    aliases := [] }

/-- An environment whose catalog contains a show with id `999`. -/
def envNine : Env :=
  { byName := fun _ => none,
    shows := fun i => if i = 999 then some ⟨999, "nine"⟩ else none,
    aliases := [] }

theorem findShowFuel_zero_id (env : Env) (tok : Tok) (h : pyTokInt tok = some 0) :
    ∀ fuel : Nat, findShowFuel env tok false fuel = findShowFuel env tok true fuel := by
  intro fuel
  cases fuel with
  | zero => rfl
  | succ f => simp [findShowFuel, h]

/-- C4: `find_show` is total (it is a Lean function), and whenever the
recursion depth has reached the bound of 20 at entry it fails with the
recursion-limit error; a cyclic alias map drives it into that error. -/
theorem claim_C4_recursion_bound :
    (∀ (env : Env) (tok : Tok) (strict : Bool) (depth : Nat),
      MAX_RECURSION_DEPTH ≤ depth →
      find_show env tok strict depth = .error .recursionLimit) ∧
    find_show cycleEnv (Tok.s "a") true 0 = .error .recursionLimit := by
  constructor
  · intro env tok strict depth h
    unfold find_show
    rw [Nat.sub_eq_zero_of_le h]
    rfl
  · decide

/-- Witness for C4 at a concrete depth past the bound. -/
theorem claim_C4_recursion_bound_witness :
    find_show cycleEnv (Tok.s "x") true 20 = .error .recursionLimit :=
  claim_C4_recursion_bound.1 cycleEnv (Tok.s "x") true 20 (Nat.le_refl _)

/-- C3 fails on the code: a numeric token whose id is absent from the catalog
raises `KeyError` (uncaught indexing at line 41), not `NoSuchShowError`. -/
theorem claim_C3_counterexample :
    pyTokInt (Tok.s "999") = some 999 ∧
    envEmpty.shows 999 = none ∧
    find_show envEmpty (Tok.s "999") false 0 = .error .keyError ∧
    (Except.error Exc.keyError : Except Exc Show) ≠ .error .noSuchShow := by
  exact ⟨by decide, rfl, by decide, by decide⟩

/-- C3 amended: a token parsing as a nonzero integer resolves directly through
the catalog; a present id yields that show, an absent id raises `KeyError`
(not `NoSuchShowError`). -/
theorem claim_C3_resolve_by_id (env : Env) (tok : Tok) (n : Int)
    (h : pyTokInt tok = some n) (hn : n ≠ 0) :
    (∀ sh, env.shows n = some sh → find_show env tok false 0 = .ok sh) ∧
    (env.shows n = none → find_show env tok false 0 = .error .keyError) := by
  have hbody : find_show env tok false 0 = lookupShows env n := by
    show findShowFuel env tok false (MAX_RECURSION_DEPTH - 0) = _
    rw [show MAX_RECURSION_DEPTH - 0 = 19 + 1 from rfl]
    simp [findShowFuel, h, hn]
  constructor
  · intro sh hsh
    rw [hbody, lookupShows, hsh]
  · intro hsh
    rw [hbody, lookupShows, hsh]

/-- Witness for C3 amended: a catalog containing id 999, and one lacking it. -/
theorem claim_C3_resolve_by_id_witness :
    find_show envNine (Tok.s "999") false 0 = .ok ⟨999, "nine"⟩ ∧
    find_show envEmpty (Tok.s "999") false 0 = .error .keyError := by
  constructor
  · exact (claim_C3_resolve_by_id envNine (Tok.s "999") 999 (by decide) (by decide)).1
      ⟨999, "nine"⟩ (by decide)
  · exact (claim_C3_resolve_by_id envEmpty (Tok.s "999") 999 (by decide) (by decide)).2 rfl

/-- C9: a token parsing to the integer 0 is falsy, so non-strict resolution
never short-circuits on it: it behaves exactly like strict resolution
(name, then alias), even when the catalog contains a show with id 0. -/
theorem claim_C9_zero_id_not_short_circuited :
    (∀ (env : Env) (tok : Tok) (depth : Nat), pyTokInt tok = some 0 →
      find_show env tok false depth = find_show env tok true depth) ∧
    envZero.shows 0 = some ⟨0, "zero"⟩ ∧
    find_show envZero (Tok.s "0") false 0 = .error .noSuchShow := by
  refine ⟨?_, rfl, by decide⟩
  intro env tok depth h
  exact findShowFuel_zero_id env tok h _

/-- Witness for C9 at the token `"0"`. -/
theorem claim_C9_zero_id_not_short_circuited_witness :
    find_show envZero (Tok.s "0") false 3 = find_show envZero (Tok.s "0") true 3 :=
  claim_C9_zero_id_not_short_circuited.1 envZero (Tok.s "0") 3 (by decide)

/-! ## Redirect store (feed_server.py lines 145-207)

The two sqlite tables `sound` and `article` share the schema
`(original text primary key, proxy text unique)` (`init_db`, lines 203-207).
A table is modelled as a list of rows in insertion order, a fresh
`shortuuid.uuid()` draw as an explicit argument, and `INSERT` as an append
guarded by both uniqueness constraints. -/

/-- One row of a redirect table. -/
structure Row where
  original : String
  proxy : String
deriving DecidableEq

abbrev Table := List Row

/-- `SELECT proxy FROM ... WHERE original=?` followed by `fetchone()`. -/
def lookupProxyByOriginal (t : Table) (u : String) : Option String :=
  (t.find? fun r => r.original == u).map fun r => r.proxy

/-- `SELECT original FROM ... WHERE proxy=?` followed by `fetchone()`. -/
def lookupOriginalByProxy (t : Table) (c : String) : Option String :=
  (t.find? fun r => r.proxy == c).map fun r => r.original

/-- `INSERT INTO ... (original, proxy) VALUES (?, ?)`: `none` is the
`sqlite3.IntegrityError` raised when either the primary key `original` or the
unique column `proxy` would be duplicated. -/
def insertRow (t : Table) (u c : String) : Option Table :=
  if (t.any fun r => r.original == u) || (t.any fun r => r.proxy == c) then none
  else some (t ++ [⟨u, c⟩])

inductive DbErr where
  | integrity
  | outOfFresh
deriving DecidableEq

/-- `get_feed_slug(show)` (line 51). -/
def get_feed_slug (sh : Show) : String :=
  get_readable_slug_from sh.title

/-- The `episode` argument of the redirect hooks; `epShow` models the Python
attribute `episode.show`. -/
structure Episode where
  epShow : Show
  sound_url : String

/-- Core of `get_redirect_sound` (lines 168-180): read the `sound` table, and
on a miss (the `KeyError` raised at line 175) insert `(original, fresh)`.
An `IntegrityError` from the insert is NOT caught in this function: it
propagates to the caller. -/
def get_or_create_proxy_sound (t : Table) (original_url : String) (fresh : String) :
    Except DbErr (Table × String) :=
  match lookupProxyByOriginal t original_url with
  | some p => .ok (t, p)
  | none =>
    match insertRow t original_url fresh with
    | some t2 => .ok (t2, fresh)
    | none => .error .integrity

/-- Core of `get_redirect_article` (lines 183-200): the same read-then-insert,
but wrapped in `except sqlite3.IntegrityError`, which restarts the whole
operation (the recursive call at line 200) with the next `shortuuid.uuid()`
draw. The draws are the list `freshes`; `.error .outOfFresh` only marks the
truncation of that unbounded stream in the model, never a source behavior. -/
def get_or_create_proxy_article (t : Table) (original_url : String) :
    List String → Except DbErr (Table × String)
  | [] => .error .outOfFresh
  | fresh :: rest =>
    match lookupProxyByOriginal t original_url with
    | some p => .ok (t, p)
    | none =>
      match insertRow t original_url fresh with
      | some t2 => .ok (t2, fresh)
      | none => get_or_create_proxy_article t original_url rest

/-- `settings.BASE_URL + url_for("redirect_episode", show=..., episode=...)`. -/
def episodeUrl (base slug code : String) : String :=
  base ++ "/episode/" ++ slug ++ "/" ++ code

/-- `settings.BASE_URL + url_for("redirect_article", show=..., article=...)`. -/
def articleUrl (base slug code : String) : String :=
  base ++ "/artikkel/" ++ slug ++ "/" ++ code

/-- `get_redirect_sound(original_url, episode)`: the proxy code wrapped into
the public episode URL. -/
def get_redirect_sound (base : String) (t : Table) (original_url : String)
    (episode : Episode) (fresh : String) : Except DbErr (Table × String) :=
  match get_or_create_proxy_sound t original_url fresh with
  | .ok (t2, code) => .ok (t2, episodeUrl base (get_feed_slug episode.epShow) code)
  | .error e => .error e

/-- `get_redirect_article(original_url, episode)`. -/
def get_redirect_article (base : String) (t : Table) (original_url : String)
    (episode : Episode) (freshes : List String) : Except DbErr (Table × String) :=
  match get_or_create_proxy_article t original_url freshes with
  | .ok (t2, code) => .ok (t2, articleUrl base (get_feed_slug episode.epShow) code)
  | .error e => .error e

/-- `get_original_sound(show, episode)` (lines 149-156): look the code up in
the `sound` table; `none` models `abort(404)`. The `show` argument is unused
by the source. -/
def get_original_sound (t : Table) (sh : Show) (episode : String) : Option String :=
  lookupOriginalByProxy t episode

/-- `get_original_article(show, article)` (lines 158-165). -/
def get_original_article (t : Table) (sh : Show) (article : String) : Option String :=
  lookupOriginalByProxy t article

/-- The two storage constraints of one table: distinct rows never share an
`original` (primary key) nor a `proxy` (unique column). -/
def RowsCompat (r1 r2 : Row) : Prop :=
  r1.original ≠ r2.original ∧ r1.proxy ≠ r2.proxy

def Wellformed (t : Table) : Prop :=
  t.Pairwise RowsCompat

/-- One successful get-or-create call of either kind, from table `t` to table
`t'`, returning proxy code `c` for `u`. -/
def opOk (t : Table) (u : String) (t' : Table) (c : String) : Prop :=
  (∃ f, get_or_create_proxy_sound t u f = .ok (t', c)) ∨
  (∃ fs, get_or_create_proxy_article t u fs = .ok (t', c))

/-- One table transition of the store. -/
def StoreStep (t t' : Table) : Prop :=
  ∃ u c, opOk t u t' c

/-- Tables reachable from the empty table created by `init_db`. -/
def Reachable (t : Table) : Prop :=
  Relation.ReflTransGen StoreStep [] t

theorem insertRow_eq {t : Table} {u c : String} {t' : Table}
    (h : insertRow t u c = some t') :
    t' = t ++ [⟨u, c⟩] ∧ ∀ r ∈ t, r.original ≠ u ∧ r.proxy ≠ c := by
  unfold insertRow at h
  split at h
  · exact absurd h (by simp)
  · next hc =>
    simp only [Bool.or_eq_true, List.any_eq_true, beq_iff_eq, not_or, not_exists] at hc
    refine ⟨(Option.some.injEq _ _ ▸ h).symm, fun r hr => ?_⟩
    push_neg at hc
    exact ⟨hc.1 r hr, hc.2 r hr⟩

theorem insertRow_none {t : Table} {u c : String}
    (h : insertRow t u c = none) :
    (∃ r ∈ t, r.original = u) ∨ ∃ r ∈ t, r.proxy = c := by
  unfold insertRow at h
  split at h
  · next hc =>
    simpa only [Bool.or_eq_true, List.any_eq_true, beq_iff_eq] using hc
  · exact absurd h (by simp)

theorem lookupProxyByOriginal_mem {t : Table} {u c : String}
    (h : lookupProxyByOriginal t u = some c) : Row.mk u c ∈ t := by
  unfold lookupProxyByOriginal at h
  rcases Option.map_eq_some'.mp h with ⟨r, hr, hp⟩
  have h1 := List.mem_of_find?_eq_some hr
  have h2 : r.original = u := by simpa using List.find?_some hr
  have : Row.mk u c = r := by
    cases r
    simp_all
  rw [this]
  exact h1

theorem lookupProxyByOriginal_eq_none {t : Table} {u : String}
    (h : ∀ r ∈ t, r.original ≠ u) : lookupProxyByOriginal t u = none := by
  unfold lookupProxyByOriginal
  rw [List.find?_eq_none.mpr (by simpa using h)]
  rfl

theorem lookupOriginalByProxy_mem {t : Table} {u c : String}
    (h : lookupOriginalByProxy t c = some u) : Row.mk u c ∈ t := by
  unfold lookupOriginalByProxy at h
  rcases Option.map_eq_some'.mp h with ⟨r, hr, hp⟩
  have h1 := List.mem_of_find?_eq_some hr
  have h2 : r.proxy = c := by simpa using List.find?_some hr
  have : Row.mk u c = r := by
    cases r
    simp_all
  rw [this]
  exact h1

theorem lookupProxyByOriginal_of_mem {t : Table} {u c : String}
    (hw : Wellformed t) (hm : Row.mk u c ∈ t) :
    lookupProxyByOriginal t u = some c := by
  induction t with
  | nil => cases hm
  | cons r rest ih =>
    rcases List.pairwise_cons.mp hw with ⟨hhead, htail⟩
    rcases List.mem_cons.mp hm with heq | hmem
    · unfold lookupProxyByOriginal
      rw [List.find?_cons_of_pos _ (by rw [← heq]; simp)]
      simp [← heq]
    · unfold lookupProxyByOriginal
      rw [List.find?_cons_of_neg _ ?_]
      · exact ih htail hmem
      · have := (hhead _ hmem).1
        simpa using this
    
theorem lookupOriginalByProxy_of_mem {t : Table} {u c : String}
    (hw : Wellformed t) (hm : Row.mk u c ∈ t) :
    lookupOriginalByProxy t c = some u := by
  induction t with
  | nil => cases hm
  | cons r rest ih =>
    rcases List.pairwise_cons.mp hw with ⟨hhead, htail⟩
    rcases List.mem_cons.mp hm with heq | hmem
    · unfold lookupOriginalByProxy
      rw [List.find?_cons_of_pos _ (by rw [← heq]; simp)]
      simp [← heq]
    · unfold lookupOriginalByProxy
      rw [List.find?_cons_of_neg _ ?_]
      · exact ih htail hmem
      · have := (hhead _ hmem).2
        simpa using this

theorem rowsCompat_symm : Symmetric RowsCompat := by
  intro a b h
  exact ⟨h.1.symm, h.2.symm⟩

theorem wellformed_unique {t : Table} {u1 c1 u2 c2 : String}
    (hw : Wellformed t) (h1 : Row.mk u1 c1 ∈ t) (h2 : Row.mk u2 c2 ∈ t) :
    (u1 = u2 ↔ c1 = c2) := by
  by_cases heq : (Row.mk u1 c1) = (Row.mk u2 c2)
  · injection heq with ho hp
    simp [ho, hp]
  · have hcompat := hw.forall rowsCompat_symm h1 h2 heq
    constructor
    · intro h
      exact absurd h hcompat.1
    · intro h
      exact absurd h hcompat.2

theorem wellformed_insert {t : Table} {u c : String} {t' : Table}
    (hw : Wellformed t) (h : insertRow t u c = some t') : Wellformed t' := by
  rcases insertRow_eq h with ⟨rfl, hfresh⟩
  rw [Wellformed, List.pairwise_append]
  refine ⟨hw, List.pairwise_singleton _ _, ?_⟩
  intro r hr r' hr'
  rcases List.mem_singleton.mp hr' with rfl
  exact hfresh r hr

theorem opOk_cases {t : Table} {u : String} {t' : Table} {c : String}
    (h : opOk t u t' c) :
    (t' = t ∧ lookupProxyByOriginal t u = some c) ∨
    (∃ f, insertRow t u f = some t' ∧ c = f) := by
  rcases h with ⟨f, hf⟩ | ⟨fs, hf⟩
  · unfold get_or_create_proxy_sound at hf
    cases hl : lookupProxyByOriginal t u with
    | some p =>
      rw [hl] at hf
      injection hf with hf
      injection hf with h1 h2
      exact Or.inl ⟨h1.symm, by rw [h2]⟩
    | none =>
      rw [hl] at hf
      cases hi : insertRow t u f with
      | some t2 =>
        rw [hi] at hf
        injection hf with hf
        injection hf with h1 h2
        exact Or.inr ⟨f, h1 ▸ hi, h2.symm⟩
      | none =>
        rw [hi] at hf
        cases hf
  · induction fs with
    | nil => cases hf
    | cons fresh rest ih =>
      unfold get_or_create_proxy_article at hf
      cases hl : lookupProxyByOriginal t u with
      | some p =>
        rw [hl] at hf
        injection hf with hf
        injection hf with h1 h2
        exact Or.inl ⟨h1.symm, by rw [h2]⟩
      | none =>
        rw [hl] at hf
        cases hi : insertRow t u fresh with
        | some t2 =>
          rw [hi] at hf
          injection hf with hf
          injection hf with h1 h2
          exact Or.inr ⟨fresh, h1 ▸ hi, h2.symm⟩
        | none =>
          rw [hi] at hf
          rcases ih hf with ⟨h1, h2⟩ | h
          · rw [hl] at h2
            cases h2
          · exact Or.inr h

theorem opOk_mem {t : Table} {u : String} {t' : Table} {c : String}
    (h : opOk t u t' c) : Row.mk u c ∈ t' := by
  rcases opOk_cases h with ⟨rfl, hl⟩ | ⟨f, hi, rfl⟩
  · exact lookupProxyByOriginal_mem hl
  · rcases insertRow_eq hi with ⟨rfl, _⟩
    simp

theorem opOk_mono {t : Table} {u : String} {t' : Table} {c : String}
    (h : opOk t u t' c) : ∀ r ∈ t, r ∈ t' := by
  rcases opOk_cases h with ⟨rfl, _⟩ | ⟨f, hi, rfl⟩
  · exact fun r hr => hr
  · rcases insertRow_eq hi with ⟨rfl, _⟩
    exact fun r hr => List.mem_append_left _ hr

theorem opOk_wf {t : Table} {u : String} {t' : Table} {c : String}
    (hw : Wellformed t) (h : opOk t u t' c) : Wellformed t' := by
  rcases opOk_cases h with ⟨rfl, _⟩ | ⟨f, hi, rfl⟩
  · exact hw
  · exact wellformed_insert hw hi

theorem storeSteps_wf {t t' : Table} (hw : Wellformed t)
    (h : Relation.ReflTransGen StoreStep t t') : Wellformed t' := by
  induction h with
  | refl => exact hw
  | tail _ hstep ih =>
    rcases hstep with ⟨u, c, hop⟩
    exact opOk_wf ih hop

theorem storeSteps_mono {t t' : Table}
    (h : Relation.ReflTransGen StoreStep t t') : ∀ r ∈ t, r ∈ t' := by
  induction h with
  | refl => exact fun r hr => hr
  | tail _ hstep ih =>
    rcases hstep with ⟨u, c, hop⟩
    exact fun r hr => opOk_mono hop r (ih r hr)

theorem reachable_wf {t : Table} (h : Reachable t) : Wellformed t :=
  storeSteps_wf List.Pairwise.nil h

/-- C7: every reachable redirect table satisfies both storage constraints, and
successful get-or-create calls for distinct originals return distinct codes. -/
theorem claim_C7_uniqueness :
    (∀ t : Table, Reachable t → Wellformed t ∧
      ∀ u1 c1 u2 c2, Row.mk u1 c1 ∈ t → Row.mk u2 c2 ∈ t → (u1 = u2 ↔ c1 = c2)) ∧
    (∀ (t t1 t2 t3 : Table) (u1 c1 u2 c2 : String), Reachable t →
      opOk t u1 t1 c1 → Relation.ReflTransGen StoreStep t1 t2 → opOk t2 u2 t3 c2 →
      u1 ≠ u2 → c1 ≠ c2) := by
  constructor
  · intro t hr
    have hw := reachable_wf hr
    exact ⟨hw, fun u1 c1 u2 c2 h1 h2 => wellformed_unique hw h1 h2⟩
  · intro t t1 t2 t3 u1 c1 u2 c2 hr hop1 hrtg hop2 hne
    have hw : Wellformed t3 :=
      opOk_wf (storeSteps_wf (opOk_wf (reachable_wf hr) hop1) hrtg) hop2
    have hm1 : Row.mk u1 c1 ∈ t3 :=
      opOk_mono hop2 _ (storeSteps_mono hrtg _ (opOk_mem hop1))
    have hm2 : Row.mk u2 c2 ∈ t3 := opOk_mem hop2
    intro hc
    exact hne ((wellformed_unique hw hm1 hm2).mpr hc)

/-- Witness for C7: two consecutive calls for distinct originals. -/
theorem claim_C7_uniqueness_witness :
    Wellformed [Row.mk "u1" "a"] ∧ ("a" : String) ≠ "b" := by
  have hop1 : opOk [] "u1" [Row.mk "u1" "a"] "a" := Or.inl ⟨"a", by decide⟩
  have hop2 : opOk [Row.mk "u1" "a"] "u2" [Row.mk "u1" "a", Row.mk "u2" "b"] "b" :=
    Or.inl ⟨"b", by decide⟩
  refine ⟨(claim_C7_uniqueness.1 _ (Relation.ReflTransGen.single ⟨"u1", "a", hop1⟩)).1, ?_⟩
  exact claim_C7_uniqueness.2 [] _ _ _ "u1" "a" "u2" "b" Relation.ReflTransGen.refl
    hop1 Relation.ReflTransGen.refl hop2 (by decide)

/-- C6: on any reachable table, a successful `get_or_create_proxy` for `u`
returning code `c` makes every later call for `u` return the same `c`
unchanged, and `resolve_original(c)` recover `u`. -/
theorem claim_C6_round_trip (t : Table) (u f : String) (hr : Reachable t)
    (t' : Table) (c : String)
    (h : get_or_create_proxy_sound t u f = .ok (t', c)) :
    (∀ f2, get_or_create_proxy_sound t' u f2 = .ok (t', c)) ∧
    ∀ sh : Show, get_original_sound t' sh c = some u := by
  have hop : opOk t u t' c := Or.inl ⟨f, h⟩
  have hw' : Wellformed t' := opOk_wf (reachable_wf hr) hop
  have hm : Row.mk u c ∈ t' := opOk_mem hop
  constructor
  · intro f2
    unfold get_or_create_proxy_sound
    rw [lookupProxyByOriginal_of_mem hw' hm]
  · intro sh
    unfold get_original_sound
    exact lookupOriginalByProxy_of_mem hw' hm

/-- Witness for C6 on the spec's example URL. -/
theorem claim_C6_round_trip_witness :
    get_or_create_proxy_sound [Row.mk "http://x/1.mp3" "C"] "http://x/1.mp3" "D" =
      .ok ([Row.mk "http://x/1.mp3" "C"], "C") ∧
    get_original_sound [Row.mk "http://x/1.mp3" "C"] ⟨1, "s"⟩ "C" =
      some "http://x/1.mp3" := by
  have h : get_or_create_proxy_sound [] "http://x/1.mp3" "C" =
      .ok ([Row.mk "http://x/1.mp3" "C"], "C") := by decide
  exact ⟨(claim_C6_round_trip [] "http://x/1.mp3" "C" Relation.ReflTransGen.refl _ _ h).1 "D",
    (claim_C6_round_trip [] "http://x/1.mp3" "C" Relation.ReflTransGen.refl _ _ h).2 ⟨1, "s"⟩⟩

/-- C1 fails on the code: in the sound kind a unique-constraint violation is
not retried — `get_redirect_sound` has no `except sqlite3.IntegrityError` — so
the conflict error propagates instead of the call returning a proxy code. -/
theorem claim_C1_counterexample :
    get_or_create_proxy_sound [Row.mk "http://a/1.mp3" "x"] "http://b/2.mp3" "x" =
      .error .integrity := by
  decide

/-- Success predicate for the article get-or-create: the call returns a code
stored for `original` in the resulting table. -/
def articleSucceeds (t : Table) (u : String) (fs : List String) : Prop :=
  match get_or_create_proxy_article t u fs with
  | .ok (t', c) => Row.mk u c ∈ t'
  | .error _ => False

/-- C1 amended: only the article kind retries. A conflicting insert makes
`get_redirect_article` restart from the read step, and the call succeeds with
a stored code as soon as a non-colliding fresh code is drawn; the sound kind
propagates the `IntegrityError` instead. -/
theorem claim_C1_conflict_retry :
    (∀ (t : Table) (u c : String) (rest : List String),
      lookupProxyByOriginal t u = none → insertRow t u c = none →
      get_or_create_proxy_article t u (c :: rest) = get_or_create_proxy_article t u rest) ∧
    (∀ (t : Table) (u f : String),
      lookupProxyByOriginal t u = none → insertRow t u f = none →
      get_or_create_proxy_sound t u f = .error .integrity) ∧
    (∀ (t : Table) (u : String) (fs : List String) (f : String),
      (∀ r ∈ t, r.original ≠ u) → f ∈ fs → (∀ r ∈ t, r.proxy ≠ f) →
      articleSucceeds t u fs) := by
  refine ⟨?_, ?_, ?_⟩
  · intro t u c rest hl hi
    simp only [get_or_create_proxy_article, hl, hi]
  · intro t u f hl hi
    unfold get_or_create_proxy_sound
    rw [hl, hi]
  · intro t u fs f hno hmem hfresh
    revert hmem
    induction fs with
    | nil =>
      intro hmem
      cases hmem
    | cons c0 rest ih =>
      intro hmem
      have hl : lookupProxyByOriginal t u = none := lookupProxyByOriginal_eq_none hno
      cases hi : insertRow t u c0 with
      | some t2 =>
        have heq : get_or_create_proxy_article t u (c0 :: rest) = .ok (t2, c0) := by
          simp only [get_or_create_proxy_article, hl, hi]
        unfold articleSucceeds
        rw [heq]
        rcases insertRow_eq hi with ⟨rfl, _⟩
        simp
      | none =>
        have heq : get_or_create_proxy_article t u (c0 :: rest) =
            get_or_create_proxy_article t u rest := by
          simp only [get_or_create_proxy_article, hl, hi]
        have hfm : f ∈ rest := by
          rcases List.mem_cons.mp hmem with rfl | h
          · rcases insertRow_none hi with ⟨r, hr, ho⟩ | ⟨r, hr, hp⟩
            · exact absurd ho (hno r hr)
            · exact absurd hp (hfresh r hr)
          · exact h
        unfold articleSucceeds
        rw [heq]
        exact ih hfm

/-- Witness for C1 amended: a retry step, a propagated sound conflict, and an
article success. -/
theorem claim_C1_conflict_retry_witness :
    get_or_create_proxy_article [Row.mk "o" "x"] "p" ["x", "y"] =
      get_or_create_proxy_article [Row.mk "o" "x"] "p" ["y"] ∧
    get_or_create_proxy_sound [Row.mk "o" "x"] "p" "x" = .error .integrity ∧
    articleSucceeds [] "q" ["y"] :=
  ⟨claim_C1_conflict_retry.1 [Row.mk "o" "x"] "p" "x" ["y"] (by decide) (by decide),
   claim_C1_conflict_retry.2.1 [Row.mk "o" "x"] "p" "x" (by decide) (by decide),
   claim_C1_conflict_retry.2.2 [] "q" ["y"] "y" (by simp) (by simp) (by simp)⟩

/-- C10: the recovered original URL does not depend on the `show` argument:
both lookup functions ignore it and key on the code alone. -/
theorem claim_C10_show_argument_irrelevant :
    ∀ (t : Table) (s1 s2 : Show) (code : String),
      get_original_sound t s1 code = get_original_sound t s2 code ∧
      get_original_article t s1 code = get_original_article t s2 code :=
  fun _ _ _ _ => ⟨rfl, rfl⟩

/-! ## Redirect routes (`redirect_episode` / `redirect_article`, lines 125-138) -/

/-- Outcome of a request: a 302 redirect to the original URL, a 404 (from
`abort(404)` or a caught `ValueError`), or a 500 caused by an exception the
route does not catch. -/
inductive HttpResult where
  | redirectTo (url : String)
  | notFound
  | serverError (e : Exc)
deriving DecidableEq

/-- Which of the modelled exceptions the routes' `except ValueError` catches.
Modelled from the spec: the declaration of `NoSuchShowError` lives in the
generator package (not under the webserver sources); the spec requires an
unknown show on these routes to surface as HTTP 404 through this handler, so
`NoSuchShowError` is modelled as a `ValueError` subclass. `RuntimeError`,
`KeyError` and `AttributeError` are not `ValueError`s. -/
def isValueError : Exc → Bool
  | .noSuchShow => true
  | _ => false

/-- `GET /episode/<show>/<episode>` (lines 125-130): resolve the show
strictly, look the code up in the `sound` table, redirect; the `abort(404)`
inside `get_original_sound` is a 404, a caught `ValueError` is a 404, any
other exception propagates. -/
def redirect_episode (env : Env) (t : Table) (show_name episode : String) :
    HttpResult :=
  match find_show env (.s show_name) true 0 with
  | .ok sh =>
    match get_original_sound t sh episode with
    | some orig => .redirectTo orig
    | none => .notFound
  | .error e => if isValueError e then .notFound else .serverError e

/-- `GET /artikkel/<show>/<article>` (lines 133-138). -/
def redirect_article (env : Env) (t : Table) (show_name article : String) :
    HttpResult :=
  match find_show env (.s show_name) true 0 with
  | .ok sh =>
    match get_original_article t sh article with
    | some orig => .redirectTo orig
    | none => .notFound
  | .error e => if isValueError e then .notFound else .serverError e

/-- C2: on both redirect routes, an unknown show (resolver fails with
`NoSuchShowError`) and an unknown code (no row with that proxy) both produce
HTTP 404, never a server error. -/
theorem claim_C2_unknown_show_or_code_404 (env : Env) (tsound tart : Table)
    (show_name code : String) :
    (find_show env (Tok.s show_name) true 0 = .error .noSuchShow →
      redirect_episode env tsound show_name code = .notFound ∧
      redirect_article env tart show_name code = .notFound) ∧
    (∀ sh, find_show env (Tok.s show_name) true 0 = .ok sh →
      lookupOriginalByProxy tsound code = none →
      redirect_episode env tsound show_name code = .notFound) ∧
    (∀ sh, find_show env (Tok.s show_name) true 0 = .ok sh →
      lookupOriginalByProxy tart code = none →
      redirect_article env tart show_name code = .notFound) := by
  refine ⟨?_, ?_, ?_⟩
  · intro h
    constructor
    · unfold redirect_episode
      rw [h]
      rfl
    · unfold redirect_article
      rw [h]
      rfl
  · intro sh h hl
    unfold redirect_episode
    rw [h]
    unfold get_original_sound
    rw [hl]
  · intro sh h hl
    unfold redirect_article
    rw [h]
    unfold get_original_article
    rw [hl]

/-- An environment where the name `"x"` resolves to show 1. -/
def envNamed : Env :=
  { byName := fun s => if s = "x" then some 1 else none,
    shows := fun i => if i = 1 then some ⟨1, "t"⟩ else none,
    aliases := [] }

/-- Witness for C2: unknown show, and known show with unknown code. -/
theorem claim_C2_unknown_show_or_code_404_witness :
    redirect_episode envEmpty [] "nope" "c" = .notFound ∧
    redirect_article envEmpty [] "nope" "c" = .notFound ∧
    redirect_episode envNamed [] "x" "c" = .notFound ∧
    redirect_article envNamed [] "x" "c" = .notFound := by
  refine ⟨((claim_C2_unknown_show_or_code_404 envEmpty [] [] "nope" "c").1 (by decide)).1,
    ((claim_C2_unknown_show_or_code_404 envEmpty [] [] "nope" "c").1 (by decide)).2,
    (claim_C2_unknown_show_or_code_404 envNamed [] [] "x" "c").2.1 ⟨1, "t"⟩ (by decide) rfl,
    (claim_C2_unknown_show_or_code_404 envNamed [] [] "x" "c").2.2 ⟨1, "t"⟩ (by decide) rfl⟩

/-! ## Concurrent `get_or_create_proxy` calls (C5)

Each inbound request runs the read-then-insert sequence of lines 168-200
against the shared table, and requests interleave freely. A call is a local
state machine: about to `SELECT` (`ready`), between the `SELECT` and the
decision (`readDone`, holding the row it saw), finished (`done code`), or
terminated by a propagated `IntegrityError` (`failed`, possible only for the
sound kind; the article kind catches the error and restarts from the read,
lines 197-200). All calls in the model target the same `original` value `u`,
which is the scenario of the concurrency claim. -/

inductive Kind where
  | sound
  | article
deriving DecidableEq

inductive Phase where
  | ready (codes : List String)
  | readDone (found : Option String) (codes : List String)
  | done (code : String)
  | failed
deriving DecidableEq

structure Call where
  kind : Kind
  phase : Phase
deriving DecidableEq

structure Sys where
  table : Table
  calls : List Call
deriving DecidableEq

/-- One atomic action of one call against the shared table. -/
inductive Step (u : String) : Sys → Sys → Prop where
  | read {t : Table} {calls : List Call} {i : Nat} {k : Kind} {cs : List String} :
      calls[i]? = some ⟨k, .ready cs⟩ →
      Step u ⟨t, calls⟩ ⟨t, calls.set i ⟨k, .readDone (lookupProxyByOriginal t u) cs⟩⟩
  | hit {t : Table} {calls : List Call} {i : Nat} {k : Kind} {p : String}
      {cs : List String} :
      calls[i]? = some ⟨k, .readDone (some p) cs⟩ →
      Step u ⟨t, calls⟩ ⟨t, calls.set i ⟨k, .done p⟩⟩
  | insOk {t : Table} {calls : List Call} {i : Nat} {k : Kind} {c : String}
      {cs : List String} {t' : Table} :
      calls[i]? = some ⟨k, .readDone none (c :: cs)⟩ →
      insertRow t u c = some t' →
      Step u ⟨t, calls⟩ ⟨t', calls.set i ⟨k, .done c⟩⟩
  | insConflictSound {t : Table} {calls : List Call} {i : Nat} {c : String}
      {cs : List String} :
      calls[i]? = some ⟨.sound, .readDone none (c :: cs)⟩ →
      insertRow t u c = none →
      Step u ⟨t, calls⟩ ⟨t, calls.set i ⟨.sound, .failed⟩⟩
  | insConflictArticle {t : Table} {calls : List Call} {i : Nat} {c : String}
      {cs : List String} :
      calls[i]? = some ⟨.article, .readDone none (c :: cs)⟩ →
      insertRow t u c = none →
      Step u ⟨t, calls⟩ ⟨t, calls.set i ⟨.article, .ready cs⟩⟩

/-- Per-call invariant: a row seen by the read, or returned by a finished
call, is stored for `u`; and article-kind calls never fail. -/
def CallOk (u : String) (t : Table) (c : Call) : Prop :=
  (∀ p cs, c.phase = .readDone (some p) cs → Row.mk u p ∈ t) ∧
  (∀ x, c.phase = .done x → Row.mk u x ∈ t) ∧
  (c.kind = .article → c.phase ≠ .failed)

def SysInv (u : String) (s : Sys) : Prop :=
  Wellformed s.table ∧ ∀ c ∈ s.calls, CallOk u s.table c

theorem callOk_mono {u : String} {t t' : Table} (hsub : ∀ r ∈ t, r ∈ t')
    {c : Call} (h : CallOk u t c) : CallOk u t' c :=
  ⟨fun p cs hp => hsub _ (h.1 p cs hp), fun x hx => hsub _ (h.2.1 x hx), h.2.2⟩

theorem step_inv {u : String} {s s' : Sys} (h : Step u s s')
    (hinv : SysInv u s) : SysInv u s' := by
  rcases hinv with ⟨hw, hcalls⟩
  cases h with
  | read hget =>
    refine ⟨hw, ?_⟩
    intro c hc
    rcases List.mem_or_eq_of_mem_set hc with hmem | rfl
    · exact hcalls c hmem
    · refine ⟨?_, ?_, ?_⟩
      · intro p cs' hp
        simp only at hp
        injection hp with h1 h2
        exact lookupProxyByOriginal_mem h1
      · intro x hx
        exact absurd hx (by simp)
      · intro _
        simp
  | hit hget =>
    refine ⟨hw, ?_⟩
    intro c hc
    rcases List.mem_or_eq_of_mem_set hc with hmem | rfl
    · exact hcalls c hmem
    · refine ⟨?_, ?_, ?_⟩
      · intro p' cs' hp
        exact absurd hp (by simp)
      · intro x hx
        simp only at hx
        injection hx with h1
        subst h1
        exact (hcalls _ (List.getElem?_mem hget)).1 _ _ rfl
      · intro _
        simp
  | insOk hget hins =>
    have hsub : ∀ r ∈ _, r ∈ _ := fun r hr =>
      (insertRow_eq hins).1 ▸ List.mem_append_left _ hr
    refine ⟨wellformed_insert hw hins, ?_⟩
    intro c hc
    rcases List.mem_or_eq_of_mem_set hc with hmem | rfl
    · exact callOk_mono hsub (hcalls c hmem)
    · refine ⟨?_, ?_, ?_⟩
      · intro p' cs' hp
        exact absurd hp (by simp)
      · intro x hx
        simp only at hx
        injection hx with h1
        subst h1
        rw [(insertRow_eq hins).1]
        simp
      · intro _
        simp
  | insConflictSound hget hins =>
    refine ⟨hw, ?_⟩
    intro c hc
    rcases List.mem_or_eq_of_mem_set hc with hmem | rfl
    · exact hcalls c hmem
    · refine ⟨?_, ?_, ?_⟩
      · intro p' cs' hp
        exact absurd hp (by simp)
      · intro x hx
        exact absurd hx (by simp)
      · intro hk
        exact absurd hk (by simp)
  | insConflictArticle hget hins =>
    refine ⟨hw, ?_⟩
    intro c hc
    rcases List.mem_or_eq_of_mem_set hc with hmem | rfl
    · exact hcalls c hmem
    · refine ⟨?_, ?_, ?_⟩
      · intro p' cs' hp
        exact absurd hp (by simp)
      · intro x hx
        exact absurd hx (by simp)
      · intro _
        simp

theorem steps_inv {u : String} {s s' : Sys}
    (h : Relation.ReflTransGen (Step u) s s') (hinv : SysInv u s) : SysInv u s' := by
  induction h with
  | refl => exact hinv
  | tail _ hstep ih => exact step_inv hstep ih

/-- C5 amended: in every interleaving of concurrent calls for the same
original `u`, the table never holds two rows for `u`, every finished call
returned the code of that unique row (so all finished calls agree), and
article-kind calls never fail — but sound-kind calls may fail instead of
returning the common code (see the counterexample). -/
theorem claim_C5_concurrent_calls_agree (u : String) (t0 : Table)
    (calls0 : List Call) (s : Sys) (hw0 : Wellformed t0)
    (hready : ∀ c ∈ calls0, ∃ k cs, c = Call.mk k (Phase.ready cs))
    (hsteps : Relation.ReflTransGen (Step u) ⟨t0, calls0⟩ s) :
    (∀ r1 ∈ s.table, ∀ r2 ∈ s.table, r1.original = u → r2.original = u → r1 = r2) ∧
    (∀ c1 ∈ s.calls, ∀ c2 ∈ s.calls, ∀ x1 x2,
      c1.phase = Phase.done x1 → c2.phase = Phase.done x2 → x1 = x2) ∧
    (∀ c ∈ s.calls, c.kind = Kind.article → c.phase ≠ Phase.failed) := by
  have hinv0 : SysInv u ⟨t0, calls0⟩ := by
    refine ⟨hw0, ?_⟩
    intro c hc
    rcases hready c hc with ⟨k, cs, rfl⟩
    exact ⟨fun p cs' hp => absurd hp (by simp),
      fun x hx => absurd hx (by simp), fun _ => by simp⟩
  have hinv := steps_inv hsteps hinv0
  have huniq : ∀ r1 ∈ s.table, ∀ r2 ∈ s.table,
      r1.original = u → r2.original = u → r1 = r2 := by
    intro r1 h1 r2 h2 ho1 ho2
    by_contra hne
    exact (hinv.1.forall rowsCompat_symm h1 h2 hne).1 (ho1.trans ho2.symm)
  refine ⟨huniq, ?_, ?_⟩
  · intro c1 hc1 c2 hc2 x1 x2 hx1 hx2
    have hm1 : Row.mk u x1 ∈ s.table := (hinv.2 c1 hc1).2.1 x1 hx1
    have hm2 : Row.mk u x2 ∈ s.table := (hinv.2 c2 hc2).2.1 x2 hx2
    have := huniq _ hm1 _ hm2 rfl rfl
    injection this
  · intro c hc
    exact (hinv.2 c hc).2.2

/-- Witness for C5 amended: one article call runs to completion. -/
theorem claim_C5_concurrent_calls_agree_witness :
    (Call.mk Kind.article (Phase.done "a")).phase ≠ Phase.failed := by
  have w1 : Step "u" ⟨[], [⟨Kind.article, Phase.ready ["a"]⟩]⟩
      ⟨[], [⟨Kind.article, Phase.readDone none ["a"]⟩]⟩ :=
    @Step.read "u" [] [⟨Kind.article, Phase.ready ["a"]⟩] 0 Kind.article ["a"] rfl
  have w2 : Step "u" ⟨[], [⟨Kind.article, Phase.readDone none ["a"]⟩]⟩
      ⟨[Row.mk "u" "a"], [⟨Kind.article, Phase.done "a"⟩]⟩ :=
    @Step.insOk "u" [] [⟨Kind.article, Phase.readDone none ["a"]⟩] 0 Kind.article
      "a" [] [Row.mk "u" "a"] rfl rfl
  refine (claim_C5_concurrent_calls_agree "u" [] [⟨Kind.article, Phase.ready ["a"]⟩]
      ⟨[Row.mk "u" "a"], [⟨Kind.article, Phase.done "a"⟩]⟩ List.Pairwise.nil ?_
      (Relation.ReflTransGen.head w1 (Relation.ReflTransGen.single w2))).2.2
      ⟨Kind.article, Phase.done "a"⟩ (by simp) rfl
  intro c hc
  rcases List.mem_singleton.mp hc with rfl
  exact ⟨Kind.article, ["a"], rfl⟩

/-- C5 fails on the code as stated: two concurrent sound-kind calls for the
identical original can race so that the loser's insert violates the primary
key and, the sound kind having no retry, the call fails instead of returning
the winner's code — so not all N calls return the same proxy code. -/
theorem claim_C5_counterexample :
    Relation.ReflTransGen (Step "u")
      ⟨[], [⟨Kind.sound, Phase.ready ["a"]⟩, ⟨Kind.sound, Phase.ready ["b"]⟩]⟩
      ⟨[Row.mk "u" "a"], [⟨Kind.sound, Phase.done "a"⟩, ⟨Kind.sound, Phase.failed⟩]⟩ ∧
    Call.mk Kind.sound Phase.failed ≠ Call.mk Kind.sound (Phase.done "a") := by
  constructor
  · have h1 : Step "u"
        ⟨[], [⟨Kind.sound, Phase.ready ["a"]⟩, ⟨Kind.sound, Phase.ready ["b"]⟩]⟩
        ⟨[], [⟨Kind.sound, Phase.readDone none ["a"]⟩, ⟨Kind.sound, Phase.ready ["b"]⟩]⟩ :=
      @Step.read "u" [] [⟨Kind.sound, Phase.ready ["a"]⟩, ⟨Kind.sound, Phase.ready ["b"]⟩]
        0 Kind.sound ["a"] rfl
    have h2 : Step "u"
        ⟨[], [⟨Kind.sound, Phase.readDone none ["a"]⟩, ⟨Kind.sound, Phase.ready ["b"]⟩]⟩
        ⟨[], [⟨Kind.sound, Phase.readDone none ["a"]⟩, ⟨Kind.sound, Phase.readDone none ["b"]⟩]⟩ :=
      @Step.read "u" []
        [⟨Kind.sound, Phase.readDone none ["a"]⟩, ⟨Kind.sound, Phase.ready ["b"]⟩]
        1 Kind.sound ["b"] rfl
    have h3 : Step "u"
        ⟨[], [⟨Kind.sound, Phase.readDone none ["a"]⟩, ⟨Kind.sound, Phase.readDone none ["b"]⟩]⟩
        ⟨[Row.mk "u" "a"], [⟨Kind.sound, Phase.done "a"⟩, ⟨Kind.sound, Phase.readDone none ["b"]⟩]⟩ :=
      @Step.insOk "u" []
        [⟨Kind.sound, Phase.readDone none ["a"]⟩, ⟨Kind.sound, Phase.readDone none ["b"]⟩]
        0 Kind.sound "a" [] [Row.mk "u" "a"] rfl rfl
    have h4 : Step "u"
        ⟨[Row.mk "u" "a"], [⟨Kind.sound, Phase.done "a"⟩, ⟨Kind.sound, Phase.readDone none ["b"]⟩]⟩
        ⟨[Row.mk "u" "a"], [⟨Kind.sound, Phase.done "a"⟩, ⟨Kind.sound, Phase.failed⟩]⟩ :=
      @Step.insConflictSound "u" [Row.mk "u" "a"]
        [⟨Kind.sound, Phase.done "a"⟩, ⟨Kind.sound, Phase.readDone none ["b"]⟩]
        1 "b" [] rfl rfl
    exact Relation.ReflTransGen.head h1 (Relation.ReflTransGen.head h2
      (Relation.ReflTransGen.head h3 (Relation.ReflTransGen.single h4)))
  · decide
